import Mathlib

/-!
# Verification of the `pluto` Storm widget (`src/pluto/widgets/storm.py`)

A shallow embedding of the streaming result consumer of the `pluto`
repository: the query history ring (`Query`), the status summary
(`Summary`), the per-form node tables (`Nodes`), the bounded console log
(`Console`) and the stream-consuming submission handler
(`Storm.on_query_bar_submitted`).

Python dictionaries with string keys and string values are modelled as
association lists (`List (String × String)`); a `d[k]` access that may
raise `KeyError` is modelled by an `Option`-valued lookup, and every
operation that can raise propagates `none`.  The wall-clock timestamp
used by `Console.print` is an explicit argument of the model (it is
ambient input in the source); the Storm handler receives a timestamp
oracle indexed by message position.
-/

namespace Pluto

/-- Python `d[k]` on a string-keyed dict, modelled on an association list:
`some v` for the stored value, `none` for a `KeyError`. -/
def lookupKey (d : List (String × String)) (k : String) : Option String :=
  match d with
  | [] => none
  | (k', v) :: rest => if k' = k then some v else lookupKey rest k

/-- Segments of a character list separated by newlines (`n` separators
yield `n + 1` segments). -/
def splitSegs : List Char → List (List Char)
  | [] => [[]]
  | c :: rest =>
    if c = '\n' then [] :: splitSegs rest
    else
      match splitSegs rest with
      | [] => [[c]]
      | seg :: segs => (c :: seg) :: segs

/-- Python `str.splitlines` restricted to `"\n"` separators: splits at each
newline and produces no trailing empty line for a trailing newline. -/
def splitlines (s : String) : List String :=
  if s.data = [] then []
  else if s.data.getLast? = some '\n' then
    ((splitSegs s.data).dropLast).map String.mk
  else (splitSegs s.data).map String.mk

/-- Characters of a string with every `[...]` markup span removed.  The flag
is `true` while inside a span.  This models how Textual renders the markup
strings built by `Summary`: the bracketed tags are styling only. -/
def stripMarkup : List Char → Bool → List Char
  | [], _ => []
  | c :: rest, true => if c = ']' then stripMarkup rest false else stripMarkup rest true
  | c :: rest, false => if c = '[' then stripMarkup rest true else c :: stripMarkup rest false

/-- The text of a markup string with the `[...]` styling tags removed. -/
def plainText (s : String) : String :=
  String.mk (stripMarkup s.data false)

/-- Model of `json.dumps((message_type, message_data))` for the
unrecognized-tag branch, where the opaque payload is already a string. -/
def dumpsPair (tag payload : String) : String :=
  "[\"" ++ tag ++ "\", \"" ++ payload ++ "\"]"

/-- Decimal round-half-even of `n` tenths to a whole unit count:
the exact-arithmetic reading of rounding one more decimal digit away. -/
def roundHalfEven10 (n : Nat) : Nat :=
  let q := n / 10
  let r := n % 10
  if r > 5 then q + 1 else if r < 5 then q else if q % 2 = 0 then q else q + 1

/-- Render a centisecond count as a seconds string with two decimals. -/
def fmtCentis (c : Nat) : String :=
  toString (c / 100) ++ "." ++ (if c % 100 < 10 then "0" else "") ++ toString (c % 100)

/-- `f"{took / 1000.0:.2f}"` of the source, read in exact arithmetic:
milliseconds rendered as seconds with two-decimal precision. -/
def fmtSeconds (took : Nat) : String :=
  fmtCentis (roundHalfEven10 took)

/-- CSS class set of a Textual widget: `remove_class`. -/
def removeClass (cs : List String) (c : String) : List String :=
  cs.filter (fun x => x ≠ c)

/-- CSS class set of a Textual widget: `add_class` (no duplicate classes). -/
def addClass (cs : List String) (c : String) : List String :=
  if c ∈ cs then cs else cs ++ [c]

/-- The `Summary` widget: its CSS classes and its displayed markup text. -/
structure Summary where
  classes : List String
  content : String
  deriving DecidableEq, Repr

/-- `Summary.error`: handle an `err` payload `(kind, info)`.  The source
reads `err[1]["mesg"]`, so a payload without that key raises `KeyError`,
modelled as `none`. -/
def Summary.error (s : Summary) (kind : String) (info : List (String × String)) :
    Option Summary :=
  (lookupKey info "mesg").map fun m =>
    { classes := addClass (removeClass s.classes "running") "error",
      content := "[b i]" ++ kind ++ "[/]: " ++ m }

/-- `Summary.success`: handle a `fini` payload (its `count` and `took`
fields, decoded at the boundary). -/
def Summary.success (s : Summary) (count : Nat) (took : Nat) : Summary :=
  { classes := addClass (removeClass s.classes "running") "success",
    content := "[b]" ++ toString count ++ "[/] in [i]" ++ fmtSeconds took ++ "s" }

/-- `Summary` update performed by `QueryBar.on_query_submitted`:
drop `error` and `success`, add `running`, show the running banner. -/
def Summary.running (s : Summary) : Summary :=
  { classes := addClass (removeClass (removeClass s.classes "error") "success") "running",
    content := "[i]running..." }

/-- The `Query` input widget state: its history deque (newest entry at the
head, `maxlen = max_history`) and the navigation cursor. -/
structure QueryState where
  history : List String
  max_history : Nat
  history_index : Nat
  deriving DecidableEq, Repr

/-- `Query.on_key`: on `"down"` decrement the cursor if positive, on `"up"`
increment it if below `len(history) - 1` (Python integer arithmetic, so the
bound is `-1` on an empty history), on any other key return leaving the
input value untouched.  For `"up"`/`"down"` the handler then uncondition-
ally loads `history[history_index]` into the input value: `none` models the
`IndexError` raised when that read is out of bounds.  The result pairs the
new state with the displayed input value. -/
def Query.on_key (s : QueryState) (value : String) (key : String) :
    Option (QueryState × String) :=
  if key = "down" then
    let s' := if s.history_index > 0 then
        { s with history_index := s.history_index - 1 } else s
    (s'.history.get? s'.history_index).map fun v => (s', v)
  else if key = "up" then
    let s' := if (s.history_index : Int) < (s.history.length : Int) - 1 then
        { s with history_index := s.history_index + 1 } else s
    (s'.history.get? s'.history_index).map fun v => (s', v)
  else
    some (s, value)

/-- The history-recording part of `QueryBar.on_query_submitted`: reset the
cursor to 0; if the history is empty `append` the query, else if it differs
from `history[0]` `appendleft` it (the deque's `maxlen` drops the oldest
entry when full), else leave the history unchanged. -/
def recordQuery (s : QueryState) (q : String) : QueryState :=
  let s := { s with history_index := 0 }
  match s.history with
  | [] => { s with history := [q].take s.max_history }
  | h0 :: _ => if q ≠ h0 then { s with history := (q :: s.history).take s.max_history } else s

/-- `QueryBar.on_query_submitted`: record the query into the history ring
and put the summary into the running state. -/
def QueryBar.on_query_submitted (qs : QueryState) (s : Summary) (q : String) :
    QueryState × Summary :=
  (recordQuery qs q, s.running)

/-- A packed Synapse node `((form, valu), data)` as consumed by
`Nodes.add_nodes`: the form name, the (ignored) primary value, and the
attribute dict carrying the precomputed representation. -/
structure Node where
  form : String
  valu : String
  data : List (String × String)
  deriving DecidableEq, Repr

/-- One step of the `sorted_nodes` grouping loop: append `row` to the entry
of `form`, creating the entry at the end on first sight (insertion-ordered
dict). -/
def insertRow (acc : List (String × List String)) (form : String) (row : String) :
    List (String × List String) :=
  match acc with
  | [] => [(form, [row])]
  | (f, rows) :: rest =>
    if f = form then (f, rows ++ [row]) :: rest else (f, rows) :: insertRow rest form row

/-- The grouping loop of `Nodes.add_nodes`: build `sorted_nodes`, reading
`data["repr"]` for each node (`none` models the `KeyError` on a node
without a representation). -/
def sortNodes (acc : List (String × List String)) : List Node →
    Option (List (String × List String))
  | [] => some acc
  | n :: rest =>
    match lookupKey n.data "repr" with
    | none => none
    | some r => sortNodes (insertRow acc n.form r) rest

/-- Append `rows` to the table of `form`, creating (mounting) a fresh table
at the end when the form has no table yet. -/
def insertRows (ts : List (String × List String)) (form : String) (rows : List String) :
    List (String × List String) :=
  match ts with
  | [] => [(form, rows)]
  | (f, rs) :: rest =>
    if f = form then (f, rs ++ rows) :: rest else (f, rs) :: insertRows rest form rows

/-- The second loop of `Nodes.add_nodes`: add every group of `sorted` to
its table. -/
def addTables (tables : List (String × List String))
    (sorted : List (String × List String)) : List (String × List String) :=
  sorted.foldl (fun ts fr => insertRows ts fr.1 fr.2) tables

/-- `Nodes.add_nodes`: group the given nodes by form (first-seen order,
rows in arrival order, each row built from `data["repr"]`), then append
each group to its table, creating tables on first sight. -/
def add_nodes (tables : List (String × List String)) (nodes : List Node) :
    Option (List (String × List String)) :=
  (sortNodes [] nodes).map (addTables tables)

/-- The `Console` widget: eviction cursor `first`, capacity `limit`, next
sequence number `lines`, and the held entries `(sequence number, text)` in
mounting order. -/
structure Console where
  first : Nat
  limit : Nat
  lines : Nat
  entries : List (Nat × String)
  deriving DecidableEq, Repr

/-- The body of the `Console.print` loop for one line: mount the stamped
line under the next sequence number, then if the held count reaches
`limit`, remove the child with id `line-first` and advance `first`. -/
def Console.printLine (c : Console) (time line : String) : Console :=
  let c := { c with
    entries := c.entries ++ [(c.lines, time ++ " - " ++ line)],
    lines := c.lines + 1 }
  if c.lines - c.first = c.limit then
    { c with entries := c.entries.filter (fun e => e.1 ≠ c.first), first := c.first + 1 }
  else c

/-- `Console.print`: split the text into lines and mount each, stamped with
the current UTC time (an explicit input of the model), evicting as the loop
goes. -/
def Console.print (c : Console) (time text : String) : Console :=
  (splitlines text).foldl (fun c line => c.printLine time line) c

/-- A fresh console of capacity `cap`. -/
def initConsole (cap : Nat) : Console :=
  { first := 0, limit := cap, lines := 0, entries := [] }

/-- Print a sequence of `(time, text)` calls. -/
def printAll (c : Console) (ps : List (String × String)) : Console :=
  ps.foldl (fun c p => c.print p.1 p.2) c

/-- One message of the Storm result stream, decoded from the wire pair
`(message_type, message_data)` at the boundary: `node` carries a packed
node, `err` a `(kind, info-dict)` pair, `fini` its `count` and `took`
fields, `print` its payload dict (the text is under `"mesg"`), and any
other tag is kept with its opaque payload serialized as a string. -/
inductive StormMsg where
  | node (n : Node)
  | err (kind : String) (info : List (String × String))
  | fini (count : Nat) (took : Nat)
  | print (info : List (String × String))
  | other (tag : String) (payload : String)
  deriving DecidableEq, Repr

/-- Whether a message carries the `err` tag. -/
def StormMsg.isErr : StormMsg → Bool
  | .err _ _ => true
  | _ => false

/-- The three result views mutated by the Storm handler. -/
structure StormState where
  nodes : List (String × List String)
  summary : Summary
  console : Console
  deriving DecidableEq, Repr

/-- The state of one run of `Storm.on_query_bar_submitted`: the views, the
local `buffer` and `cleared` variables, and three ghost event counters (not
part of the source state) observing how often `nodes.add_nodes` was called
(`flushes`), how often `nodes.clear` was called (`clears`), and how many
`node` messages were consumed (`recordsSeen`). -/
structure LoopState where
  st : StormState
  buffer : List Node
  cleared : Bool
  flushes : Nat
  clears : Nat
  recordsSeen : Nat
  deriving DecidableEq, Repr

/-- The loop state at the top of `Storm.on_query_bar_submitted`. -/
def initLoop (st : StormState) : LoopState :=
  { st := st, buffer := [], cleared := false, flushes := 0, clears := 0, recordsSeen := 0 }

/-- The buffer size at which the handler flushes (`limit = 100`). -/
def stormLimit : Nat := 100

/-- One iteration of the dispatch loop of `Storm.on_query_bar_submitted`
on one message, at timestamp `time`.  Returns the new state and whether
the loop continues (`false` exactly for the `break` after an `err`);
`none` models an uncaught exception (a `KeyError` on a payload). -/
def stepMsg (limit : Nat) (time : String) (ls : LoopState) :
    StormMsg → Option (LoopState × Bool)
  | .node n =>
    let buffer := ls.buffer ++ [n]
    let ls := { ls with buffer := buffer, recordsSeen := ls.recordsSeen + 1 }
    if buffer.length = limit then
      let (tables, clears) :=
        if ¬ ls.cleared then (([] : List (String × List String)), ls.clears + 1)
        else (ls.st.nodes, ls.clears)
      match add_nodes tables buffer with
      | none => none
      | some t' => some ({ ls with
          st := { ls.st with nodes := t' },
          buffer := [], cleared := true,
          flushes := ls.flushes + 1, clears := clears }, true)
    else some (ls, true)
  | .err kind info =>
    match ls.st.summary.error kind info with
    | none => none
    | some s' => some ({ ls with st := { ls.st with summary := s' } }, false)
  | .fini count took =>
    some ({ ls with st := { ls.st with summary := ls.st.summary.success count took } }, true)
  | .print info =>
    match lookupKey info "mesg" with
    | none => none
    | some text =>
      some ({ ls with st := { ls.st with console := ls.st.console.print time text } }, true)
  | .other tag payload =>
    some ({ ls with st := { ls.st with
        console := ls.st.console.print time (dumpsPair tag payload) } }, true)

/-- The `async for` loop of `Storm.on_query_bar_submitted`: consume the
messages in order (message `i` arriving at `times i`), stopping early at
the `break` of the `err` branch. -/
def runLoop (limit : Nat) (times : Nat → String) : Nat → LoopState → List StormMsg →
    Option LoopState
  | _, ls, [] => some ls
  | i, ls, m :: rest =>
    match stepMsg limit (times i) ls m with
    | none => none
    | some (ls', true) => runLoop limit times (i + 1) ls' rest
    | some (ls', false) => some ls'

/-- The code after the loop of `Storm.on_query_bar_submitted`: if the
buffer is non-empty, clear the tables unless already cleared this cycle,
then add the remaining buffered nodes. -/
def finishRun (ls : LoopState) : Option LoopState :=
  if ls.buffer = [] then some ls
  else
    let (tables, clears) :=
      if ¬ ls.cleared then (([] : List (String × List String)), ls.clears + 1)
      else (ls.st.nodes, ls.clears)
    (add_nodes tables ls.buffer).map fun t' =>
      { ls with st := { ls.st with nodes := t' }, flushes := ls.flushes + 1, clears := clears }

/-- `Storm.on_query_bar_submitted`: run the dispatch loop over the whole
result stream of one query cycle, then flush any remaining buffered
nodes. -/
def on_query_bar_submitted (st : StormState) (msgs : List StormMsg)
    (times : Nat → String) : Option LoopState :=
  (runLoop stormLimit times 0 (initLoop st) msgs).bind finishRun

/-- Proof-side invariant of the dispatch loop relating the one-time lazy
clear to the ghost counters: the previous cycle's tables `tables0` are
untouched until the first flush, which is also the single clear. -/
def clearInv (tables0 : List (String × List String)) (ls : LoopState) : Prop :=
  ls.clears ≤ 1
  ∧ (ls.cleared = true ↔ ls.clears = 1)
  ∧ (ls.cleared = true ↔ 1 ≤ ls.flushes)
  ∧ (ls.flushes = 0 → ls.st.nodes = tables0)

/-- Proof-side characterization of a console after `n` single-line prints
starting from `initConsole cap`: the next sequence number is `n`, the held
entries carry the consecutive sequence numbers ending at `n - 1`, and their
count is `min n (cap - 1)`. -/
def goodConsole (cap n : Nat) (c : Console) : Prop :=
  c.limit = cap ∧ c.lines = n ∧ c.first = n - min n (cap - 1) ∧
  c.entries.map Prod.fst = List.range' c.first (min n (cap - 1))

/-! ## Helper lemmas -/

theorem stripMarkup_clean (xs ys : List Char) (hx : ∀ c ∈ xs, c ≠ '[') :
    stripMarkup (xs ++ ys) false = xs ++ stripMarkup ys false := by
  induction xs with
  | nil => rfl
  | cons c rest ih =>
    have hc : c ≠ '[' := hx c (List.mem_cons_self _ _)
    simp only [List.cons_append, stripMarkup, if_neg hc]
    exact congrArg (List.cons c) (ih (fun d hd => hx d (List.mem_cons_of_mem _ hd)))

theorem stripMarkup_skip (inner ys : List Char) (hx : ∀ c ∈ inner, c ≠ ']') :
    stripMarkup (inner ++ ']' :: ys) true = stripMarkup ys false := by
  induction inner with
  | nil => simp [stripMarkup]
  | cons c rest ih =>
    have hc : c ≠ ']' := hx c (List.mem_cons_self _ _)
    simp only [List.cons_append, stripMarkup, if_neg hc]
    exact ih (fun d hd => hx d (List.mem_cons_of_mem _ hd))

theorem stripMarkup_tag (inner ys : List Char) (hx : ∀ c ∈ inner, c ≠ ']') :
    stripMarkup ('[' :: (inner ++ ']' :: ys)) false = stripMarkup ys false := by
  rw [show stripMarkup ('[' :: (inner ++ ']' :: ys)) false
      = stripMarkup (inner ++ ']' :: ys) true by simp [stripMarkup]]
  exact stripMarkup_skip inner ys hx

theorem plainText_error_content (kind m : String)
    (hk : ∀ c ∈ kind.data, c ≠ '[') (hm : ∀ c ∈ m.data, c ≠ '[') :
    plainText ("[b i]" ++ kind ++ "[/]: " ++ m) = kind ++ ": " ++ m := by
  have key1 : ∀ t : List Char,
      stripMarkup ('[' :: 'b' :: ' ' :: 'i' :: ']' :: t) false = stripMarkup t false := by
    intro t
    exact stripMarkup_tag ['b', ' ', 'i'] t (by decide)
  have key2 : ∀ t : List Char,
      stripMarkup ('[' :: '/' :: ']' :: t) false = stripMarkup t false := by
    intro t
    exact stripMarkup_tag ['/'] t (by decide)
  have hm' : stripMarkup (':' :: ' ' :: m.data) false = ':' :: ' ' :: m.data := by
    have hcl : ∀ c ∈ (':' :: ' ' :: m.data), c ≠ '[' := by
      intro c hc
      simp only [List.mem_cons] at hc
      rcases hc with rfl | rfl | hc
      · decide
      · decide
      · exact hm c hc
    have := stripMarkup_clean (':' :: ' ' :: m.data) [] hcl
    simpa [stripMarkup] using this
  have hdata : ("[b i]" ++ kind ++ "[/]: " ++ m).data
      = '[' :: 'b' :: ' ' :: 'i' :: ']' ::
        (kind.data ++ '[' :: '/' :: ']' :: ':' :: ' ' :: m.data) := by
    simp [String.data_append]
  unfold plainText
  rw [hdata, key1, stripMarkup_clean _ _ hk, key2, hm']
  apply String.ext
  simp [String.data_append]

theorem map_fst_filter_ne (l : List (Nat × String)) (a : Nat) :
    (l.filter (fun e => e.1 ≠ a)).map Prod.fst
      = (l.map Prod.fst).filter (fun x => x ≠ a) := by
  induction l with
  | nil => rfl
  | cons e rest ih =>
    by_cases he : e.1 = a
    · rw [List.map_cons,
        List.filter_cons_of_neg (by simpa using he),
        List.filter_cons_of_neg (by simpa using he)]
      exact ih
    · rw [List.map_cons,
        List.filter_cons_of_pos (by simpa using he),
        List.filter_cons_of_pos (by simpa using he),
        List.map_cons]
      exact congrArg (List.cons e.1) ih

theorem filter_ne_range' (s k a : Nat) (ha : a < s) :
    (List.range' s k).filter (fun x => x ≠ a) = List.range' s k := by
  rw [List.filter_eq_self]
  intro x hx
  rw [List.mem_range'_1] at hx
  simp only [ne_eq, decide_not, Bool.not_eq_true', decide_eq_false_iff_not]
  omega

theorem filter_ne_cons_range' (f m : Nat) :
    (List.range' f (m + 1)).filter (fun x => x ≠ f) = List.range' (f + 1) m := by
  rw [List.range'_succ,
    List.filter_cons_of_neg (by simp)]
  exact filter_ne_range' (f + 1) m f (Nat.lt_succ_self f)

theorem print_single (c : Console) (time t : String) (ht : splitlines t = [t]) :
    c.print time t = c.printLine time t := by
  unfold Console.print
  rw [ht]
  rfl

theorem printLine_good (cap n : Nat) (hcap : 1 ≤ cap) (c : Console)
    (time t : String) (hc : goodConsole cap n c) :
    goodConsole cap (n + 1) (c.printLine time t) := by
  obtain ⟨hl, hn, hf, he⟩ := hc
  have hmn : min n (cap - 1) ≤ n := Nat.min_le_left _ _
  have hfn : c.lines = c.first + min n (cap - 1) := by omega
  have happ : ((c.entries ++ [(c.lines, time ++ " - " ++ t)]).map Prod.fst)
      = List.range' c.first (min n (cap - 1) + 1) := by
    rw [List.map_append, he, List.range'_concat]
    simp [hfn]
  unfold Console.printLine
  simp only
  by_cases hev : c.lines + 1 - c.first = c.limit
  · rw [if_pos hev]
    have hm : min n (cap - 1) = cap - 1 := by omega
    refine ⟨hl, by simp [hn], ?_, ?_⟩
    · simp only [hn]
      omega
    · rw [map_fst_filter_ne, happ, filter_ne_cons_range']
      have h2 : min n (cap - 1) = min (n + 1) (cap - 1) := by omega
      rw [h2]
  · rw [if_neg hev]
    have hm : min n (cap - 1) = n ∧ n < cap - 1 := by omega
    refine ⟨hl, by simp [hn], ?_, ?_⟩
    · simp only [hn]
      omega
    · rw [happ]
      have h2 : min n (cap - 1) + 1 = min (n + 1) (cap - 1) := by omega
      rw [h2]

theorem printAll_good (cap : Nat) (hcap : 1 ≤ cap) (ps : List (String × String)) :
    ∀ (c : Console) (n : Nat), (∀ p ∈ ps, splitlines p.2 = [p.2]) →
      goodConsole cap n c → goodConsole cap (n + ps.length) (printAll c ps) := by
  induction ps with
  | nil => intro c n _ hc; simpa [printAll] using hc
  | cons p rest ih =>
    intro c n hps hc
    have hstep : goodConsole cap (n + 1) (c.print p.1 p.2) := by
      rw [print_single c p.1 p.2 (hps p (List.mem_cons_self _ _))]
      exact printLine_good cap n hcap c p.1 p.2 hc
    have := ih (c.print p.1 p.2) (n + 1)
      (fun q hq => hps q (List.mem_cons_of_mem _ hq)) hstep
    have harith : n + 1 + rest.length = n + (rest.length + 1) := by omega
    rw [harith] at this
    simpa [printAll] using this

theorem initConsole_good (cap : Nat) : goodConsole cap 0 (initConsole cap) := by
  refine ⟨rfl, rfl, by simp [initConsole], by simp [initConsole]⟩

theorem sortNodes_total (ns : List Node) :
    ∀ acc, (∀ n ∈ ns, lookupKey n.data "repr" ≠ none) →
      ∃ s, sortNodes acc ns = some s := by
  induction ns with
  | nil => intro acc _; exact ⟨acc, rfl⟩
  | cons n rest ih =>
    intro acc hrepr
    obtain ⟨r, hr⟩ := Option.ne_none_iff_exists'.mp (hrepr n (List.mem_cons_self _ _))
    obtain ⟨s, hs⟩ := ih (insertRow acc n.form r)
      (fun x hx => hrepr x (List.mem_cons_of_mem _ hx))
    exact ⟨s, by simp [sortNodes, hr, hs]⟩

theorem add_nodes_total (tables : List (String × List String)) (ns : List Node)
    (hrepr : ∀ n ∈ ns, lookupKey n.data "repr" ≠ none) :
    ∃ t', add_nodes tables ns = some t' := by
  obtain ⟨s, hs⟩ := sortNodes_total ns [] hrepr
  exact ⟨addTables tables s, by simp [add_nodes, hs]⟩

theorem stepMsg_cont (limit : Nat) (t : String) (ls : LoopState) (m : StormMsg)
    (hm : m.isErr = false) (ls' : LoopState) (c : Bool)
    (h : stepMsg limit t ls m = some (ls', c)) : c = true := by
  cases m with
  | node n =>
    simp only [stepMsg] at h
    split at h
    · split at h
      · exact absurd h (by simp)
      · exact (Option.some.inj h ▸ rfl : (ls', c).2 = true)
    · exact (Option.some.inj h ▸ rfl : (ls', c).2 = true)
  | err kind info => simp [StormMsg.isErr] at hm
  | fini count took =>
    simp only [stepMsg] at h
    exact (Option.some.inj h ▸ rfl : (ls', c).2 = true)
  | print info =>
    simp only [stepMsg] at h
    split at h
    · exact absurd h (by simp)
    · exact (Option.some.inj h ▸ rfl : (ls', c).2 = true)
  | other tag payload =>
    simp only [stepMsg] at h
    exact (Option.some.inj h ▸ rfl : (ls', c).2 = true)

theorem runLoop_append (limit : Nat) (times : Nat → String) (xs ys : List StormMsg)
    (hx : ∀ m ∈ xs, m.isErr = false) :
    ∀ (i : Nat) (ls : LoopState),
      runLoop limit times i ls (xs ++ ys)
        = (runLoop limit times i ls xs).bind
            (fun ls' => runLoop limit times (i + xs.length) ls' ys) := by
  induction xs with
  | nil => intro i ls; simp [runLoop]
  | cons m rest ih =>
    intro i ls
    rw [List.cons_append]
    simp only [runLoop]
    cases hstep : stepMsg limit (times i) ls m with
    | none => simp
    | some p =>
      obtain ⟨ls', cont⟩ := p
      have hcont : cont = true :=
        stepMsg_cont limit (times i) ls m (hx m (List.mem_cons_self _ _)) ls' cont hstep
      subst hcont
      show runLoop limit times (i + 1) ls' (rest ++ ys)
        = (runLoop limit times (i + 1) ls' rest).bind
            (fun ls'' => runLoop limit times (i + (m :: rest).length) ls'' ys)
      rw [ih (fun x hm => hx x (List.mem_cons_of_mem _ hm)) (i + 1) ls']
      have harith : i + 1 + rest.length = i + (m :: rest).length := by
        simp only [List.length_cons]
        omega
      rw [harith]

theorem stepMsg_node (limit : Nat) (t : String) (ls : LoopState) (n : Node) :
    stepMsg limit t ls (.node n)
      = if (ls.buffer ++ [n]).length = limit then
          (add_nodes (if ls.cleared then ls.st.nodes else []) (ls.buffer ++ [n])).map
            (fun t' => ({
              st := { ls.st with nodes := t' },
              buffer := [],
              cleared := true,
              flushes := ls.flushes + 1,
              clears := if ls.cleared then ls.clears else ls.clears + 1,
              recordsSeen := ls.recordsSeen + 1 }, true))
        else some ({ ls with
          buffer := ls.buffer ++ [n],
          recordsSeen := ls.recordsSeen + 1 }, true) := by
  by_cases hcl : ls.cleared <;>
    by_cases hfull : (ls.buffer ++ [n]).length = limit <;>
      simp only [stepMsg, hcl, hfull, not_true, not_false_iff, if_true, if_false,
        ite_true, ite_false, if_pos, if_neg] <;>
    cases hadd : add_nodes (if ls.cleared then ls.st.nodes else [])
        (ls.buffer ++ [n]) <;>
    simp_all [stepMsg]

theorem runLoop_err_break (limit : Nat) (times : Nat → String) (i : Nat)
    (ls : LoopState) (kind : String) (info : List (String × String))
    (rest : List StormMsg) :
    runLoop limit times i ls (.err kind info :: rest)
      = match ls.st.summary.error kind info with
        | none => none
        | some s' => some { ls with st := { ls.st with summary := s' } } := by
  simp only [runLoop, stepMsg]
  cases h : ls.st.summary.error kind info <;> simp [h]

theorem finishRun_total (ls : LoopState)
    (hb : ∀ n ∈ ls.buffer, lookupKey n.data "repr" ≠ none) :
    ∃ fin, finishRun ls = some fin
      ∧ fin.st.summary = ls.st.summary
      ∧ fin.st.console = ls.st.console
      ∧ fin.recordsSeen = ls.recordsSeen
      ∧ (ls.buffer = [] → fin = ls)
      ∧ (ls.buffer ≠ [] → fin.flushes = ls.flushes + 1
          ∧ add_nodes (if ls.cleared then ls.st.nodes else []) ls.buffer
              = some fin.st.nodes) := by
  by_cases hemp : ls.buffer = []
  · exact ⟨ls, by simp [finishRun, hemp], rfl, rfl, rfl, fun _ => rfl,
      fun h => absurd hemp h⟩
  · obtain ⟨t', ht'⟩ :=
      add_nodes_total (if ls.cleared then ls.st.nodes else []) ls.buffer hb
    by_cases hcl : ls.cleared
    · rw [hcl, if_pos rfl] at ht'
      refine ⟨{ ls with
          st := { ls.st with nodes := t' },
          flushes := ls.flushes + 1,
          clears := ls.clears }, ?_, rfl, rfl, rfl,
        fun h => absurd h hemp, fun _ => ⟨rfl, ?_⟩⟩
      · simp [finishRun, hemp, hcl, ht']
      · rw [hcl, if_pos rfl, ht']
    · simp only [Bool.not_eq_true] at hcl
      rw [hcl] at ht'
      simp only [Bool.false_eq_true, if_false] at ht'
      refine ⟨{ ls with
          st := { ls.st with nodes := t' },
          flushes := ls.flushes + 1,
          clears := ls.clears + 1 }, ?_, rfl, rfl, rfl,
        fun h => absurd h hemp, fun _ => ⟨rfl, ?_⟩⟩
      · simp [finishRun, hemp, hcl, ht']
      · rw [hcl]
        simp only [Bool.false_eq_true, if_false]
        rw [ht']

theorem stepMsg_buffer_lt (t : String) (ls : LoopState) (m : StormMsg)
    (ls' : LoopState) (c : Bool) (h : stepMsg stormLimit t ls m = some (ls', c))
    (hb : ls.buffer.length < 100) : ls'.buffer.length < 100 := by
  have hsl : stormLimit = 100 := rfl
  cases m with
  | node n =>
    rw [stepMsg_node] at h
    split at h
    · rcases Option.map_eq_some'.mp h with ⟨t', _, heq⟩
      have := congrArg Prod.fst heq
      simp only at this
      rw [← this]
      simp
    · have := congrArg Prod.fst (Option.some.inj h)
      simp only at this
      rw [← this]
      rename_i hne
      rw [hsl] at hne
      simp only [List.length_append, List.length_singleton]
      simp only [List.length_append, List.length_singleton] at hne
      omega
  | err kind info =>
    simp only [stepMsg] at h
    cases herr : Summary.error ls.st.summary kind info <;> rw [herr] at h
    · exact absurd h (by simp)
    · have := congrArg Prod.fst (Option.some.inj h)
      simp only at this
      rw [← this]
      exact hb
  | fini count took =>
    simp only [stepMsg] at h
    have := congrArg Prod.fst (Option.some.inj h)
    simp only at this
    rw [← this]
    exact hb
  | print info =>
    simp only [stepMsg] at h
    cases hl : lookupKey info "mesg" <;> rw [hl] at h
    · exact absurd h (by simp)
    · have := congrArg Prod.fst (Option.some.inj h)
      simp only at this
      rw [← this]
      exact hb
  | other tag payload =>
    simp only [stepMsg] at h
    have := congrArg Prod.fst (Option.some.inj h)
    simp only at this
    rw [← this]
    exact hb

theorem runLoop_buffer_lt (times : Nat → String) (msgs : List StormMsg) :
    ∀ (i : Nat) (ls ls' : LoopState),
      runLoop stormLimit times i ls msgs = some ls' →
      ls.buffer.length < 100 → ls'.buffer.length < 100 := by
  induction msgs with
  | nil =>
    intro i ls ls' h hb
    simp only [runLoop] at h
    rw [← Option.some.inj h]
    exact hb
  | cons m rest ih =>
    intro i ls ls' h hb
    simp only [runLoop] at h
    cases hstep : stepMsg stormLimit (times i) ls m with
    | none => rw [hstep] at h; exact absurd h (by simp)
    | some p =>
      obtain ⟨ls₁, c⟩ := p
      rw [hstep] at h
      have h1 := stepMsg_buffer_lt _ _ _ _ _ hstep hb
      cases c
      · rw [← Option.some.inj h]
        exact h1
      · exact ih (i + 1) ls₁ ls' h h1

theorem stepMsg_clearInv (tables0 : List (String × List String)) (t : String)
    (ls : LoopState) (m : StormMsg) (ls' : LoopState) (c : Bool)
    (h : stepMsg stormLimit t ls m = some (ls', c))
    (hinv : clearInv tables0 ls) : clearInv tables0 ls' := by
  obtain ⟨h1, h2, h3, h4⟩ := hinv
  cases m with
  | node n =>
    rw [stepMsg_node] at h
    split at h
    · rcases Option.map_eq_some'.mp h with ⟨t', _, heq⟩
      have := congrArg Prod.fst heq
      simp only at this
      rw [← this]
      unfold clearInv
      simp only
      by_cases hcl : ls.cleared = true
      · rw [if_pos hcl]
        have hc1 : ls.clears = 1 := h2.mp hcl
        refine ⟨by omega, by simp [hc1], by simp, ?_⟩
        intro hz
        exact absurd hz (by omega)
      · rw [if_neg hcl]
        have hc0 : ls.clears = 0 := by
          have hne : ls.clears ≠ 1 := fun hc => hcl (h2.mpr hc)
          omega
        refine ⟨by omega, by simp [hc0], by simp, ?_⟩
        intro hz
        exact absurd hz (by omega)
    · have := congrArg Prod.fst (Option.some.inj h)
      simp only at this
      rw [← this]
      exact ⟨h1, h2, h3, h4⟩
  | err kind info =>
    simp only [stepMsg] at h
    cases herr : Summary.error ls.st.summary kind info <;> rw [herr] at h
    · exact absurd h (by simp)
    · have := congrArg Prod.fst (Option.some.inj h)
      simp only at this
      rw [← this]
      exact ⟨h1, h2, h3, h4⟩
  | fini count took =>
    simp only [stepMsg] at h
    have := congrArg Prod.fst (Option.some.inj h)
    simp only at this
    rw [← this]
    exact ⟨h1, h2, h3, h4⟩
  | print info =>
    simp only [stepMsg] at h
    cases hl : lookupKey info "mesg" <;> rw [hl] at h
    · exact absurd h (by simp)
    · have := congrArg Prod.fst (Option.some.inj h)
      simp only at this
      rw [← this]
      exact ⟨h1, h2, h3, h4⟩
  | other tag payload =>
    simp only [stepMsg] at h
    have := congrArg Prod.fst (Option.some.inj h)
    simp only at this
    rw [← this]
    exact ⟨h1, h2, h3, h4⟩

theorem runLoop_clearInv (tables0 : List (String × List String))
    (times : Nat → String) (msgs : List StormMsg) :
    ∀ (i : Nat) (ls ls' : LoopState),
      runLoop stormLimit times i ls msgs = some ls' →
      clearInv tables0 ls → clearInv tables0 ls' := by
  induction msgs with
  | nil =>
    intro i ls ls' h hinv
    simp only [runLoop] at h
    rw [← Option.some.inj h]
    exact hinv
  | cons m rest ih =>
    intro i ls ls' h hinv
    simp only [runLoop] at h
    cases hstep : stepMsg stormLimit (times i) ls m with
    | none => rw [hstep] at h; exact absurd h (by simp)
    | some p =>
      obtain ⟨ls₁, c⟩ := p
      rw [hstep] at h
      have h1 := stepMsg_clearInv _ _ _ _ _ _ hstep hinv
      cases c
      · rw [← Option.some.inj h]
        exact h1
      · exact ih (i + 1) ls₁ ls' h h1

theorem runLoop_nodes (times : Nat → String) (ns : List Node) :
    ∀ (i : Nat) (ls : LoopState),
      (∀ n ∈ ls.buffer, lookupKey n.data "repr" ≠ none) →
      (∀ n ∈ ns, lookupKey n.data "repr" ≠ none) →
      ls.buffer.length < 100 →
      ∃ ls', runLoop stormLimit times i ls (ns.map .node) = some ls'
        ∧ ls'.st.summary = ls.st.summary
        ∧ ls'.st.console = ls.st.console
        ∧ ls'.recordsSeen = ls.recordsSeen + ns.length
        ∧ ls'.buffer.length = (ls.buffer.length + ns.length) % 100
        ∧ ls'.flushes = ls.flushes + (ls.buffer.length + ns.length) / 100
        ∧ (∀ n ∈ ls'.buffer, lookupKey n.data "repr" ≠ none)
        ∧ ls'.buffer.length < 100 := by
  have hsl : stormLimit = 100 := rfl
  induction ns with
  | nil =>
    intro i ls hb _ hlen
    exact ⟨ls, rfl, rfl, rfl, by simp, by simp [Nat.mod_eq_of_lt hlen],
      by simp [Nat.div_eq_of_lt hlen], hb, hlen⟩
  | cons n rest ih =>
    intro i ls hb hn hlen
    have hnn : lookupKey n.data "repr" ≠ none := hn n (List.mem_cons_self _ _)
    have hrest : ∀ x ∈ rest, lookupKey x.data "repr" ≠ none :=
      fun x hx => hn x (List.mem_cons_of_mem _ hx)
    have hall : ∀ x ∈ ls.buffer ++ [n], lookupKey x.data "repr" ≠ none := by
      intro x hx
      rcases List.mem_append.mp hx with hx | hx
      · exact hb x hx
      · rw [List.mem_singleton.mp hx]
        exact hnn
    rw [List.map_cons]
    simp only [runLoop, stepMsg_node]
    by_cases hfull : (ls.buffer ++ [n]).length = stormLimit
    · rw [if_pos hfull]
      obtain ⟨t', ht'⟩ := add_nodes_total
        (if ls.cleared then ls.st.nodes else []) (ls.buffer ++ [n]) hall
      rw [ht']
      obtain ⟨ls', hrun, hsum, hcon, hrec, hblen, hfl, hbr, hlt⟩ :=
        ih (i + 1)
          ⟨{ ls.st with nodes := t' }, [], true, ls.flushes + 1,
            (if ls.cleared then ls.clears else ls.clears + 1), ls.recordsSeen + 1⟩
          (fun x hx => absurd hx (List.not_mem_nil x)) hrest (by simp)
      have hb100 : ls.buffer.length + 1 = 100 := by
        rw [hsl] at hfull
        simpa using hfull
      have hrec' : ls'.recordsSeen = ls.recordsSeen + 1 + rest.length := hrec
      have hblen' : ls'.buffer.length = (0 + rest.length) % 100 := hblen
      have hfl' : ls'.flushes = ls.flushes + 1 + (0 + rest.length) / 100 := hfl
      refine ⟨ls', hrun, hsum, hcon, ?_, ?_, ?_, hbr, hlt⟩
      · simp only [List.length_cons]
        omega
      · simp only [List.length_cons]
        omega
      · simp only [List.length_cons]
        omega
    · rw [if_neg hfull]
      have hlen1 : (ls.buffer ++ [n]).length < 100 := by
        rw [hsl] at hfull
        simp only [List.length_append, List.length_singleton] at hfull ⊢
        omega
      obtain ⟨ls', hrun, hsum, hcon, hrec, hblen, hfl, hbr, hlt⟩ :=
        ih (i + 1)
          ⟨ls.st, ls.buffer ++ [n], ls.cleared, ls.flushes, ls.clears,
            ls.recordsSeen + 1⟩
          hall hrest hlen1
      have hrec' : ls'.recordsSeen = ls.recordsSeen + 1 + rest.length := hrec
      have hblen' : ls'.buffer.length
          = ((ls.buffer ++ [n]).length + rest.length) % 100 := hblen
      have hfl' : ls'.flushes
          = ls.flushes + ((ls.buffer ++ [n]).length + rest.length) / 100 := hfl
      have hlapp : (ls.buffer ++ [n]).length = ls.buffer.length + 1 := by
        simp
      refine ⟨ls', hrun, hsum, hcon, ?_, ?_, ?_, hbr, hlt⟩
      · simp only [List.length_cons]
        omega
      · simp only [List.length_cons]
        omega
      · simp only [List.length_cons]
        omega

theorem runLoop_fini (limit : Nat) (times : Nat → String) (i : Nat)
    (ls : LoopState) (count took : Nat) (rest : List StormMsg) :
    runLoop limit times i ls (.fini count took :: rest)
      = runLoop limit times (i + 1)
          { ls with st := { ls.st with summary := ls.st.summary.success count took } }
          rest := by
  simp only [runLoop, stepMsg]

theorem sortNodes_missing (pre : List Node) (n : Node) (post : List Node)
    (hpre : ∀ x ∈ pre, lookupKey x.data "repr" ≠ none)
    (hn : lookupKey n.data "repr" = none) :
    ∀ acc, sortNodes acc (pre ++ n :: post) = none := by
  induction pre with
  | nil => intro acc; simp [sortNodes, hn]
  | cons x rest ih =>
    intro acc
    obtain ⟨r, hr⟩ := Option.ne_none_iff_exists'.mp (hpre x (List.mem_cons_self _ _))
    simp only [List.cons_append, sortNodes, hr]
    exact ih (fun y hy => hpre y (List.mem_cons_of_mem _ hy)) _

end Pluto

open Pluto

/-! ## Claims -/

/-- C9: with an empty History Ring, handling an up-arrow or down-arrow key
in the query input is not total: the boundary checks leave the cursor at 0
and the handler then reads the entry at index 0 of the empty history, an
out-of-bounds access (`IndexError`, modelled as `none`) rather than a
no-op. -/
theorem claim_C9_empty_history_key_crash (v : String) (m : Nat) :
    Query.on_key ⟨[], m, 0⟩ v "up" = none
  ∧ Query.on_key ⟨[], m, 0⟩ v "down" = none := by
  constructor <;> rfl

/-- C4 counterexample: with history `["a"]` and cursor 0, a `"down"` key is
not a no-op as the claim states: the cursor is unchanged but the displayed
input value is overwritten with `history[0] = "a"`, discarding the typed
text. -/
theorem claim_C4_counterexample :
    Query.on_key ⟨["a"], 1000, 0⟩ "typed" "down" = some (⟨["a"], 1000, 0⟩, "a")
  ∧ ("a" : String) ≠ "typed" := by
  constructor
  · rfl
  · decide

/-- C4 amended: `older` (`"up"`) increments the cursor only while
`index < len - 1` and `newer` (`"down"`) decrements it only while
`index > 0`, yielding the entry at the new cursor; at either boundary the
cursor is unchanged, but the navigation is not a no-op: the handler still
loads the entry at the (unchanged) cursor into the displayed input value. -/
theorem claim_C4_navigation (h : List String) (m i : Nat) (v : String)
    (hi : i < h.length) :
    (i = 0 → ∃ e, h.get? 0 = some e ∧
        Query.on_key ⟨h, m, i⟩ v "down" = some (⟨h, m, i⟩, e))
  ∧ (0 < i → ∃ e, h.get? (i - 1) = some e ∧
        Query.on_key ⟨h, m, i⟩ v "down" = some (⟨h, m, i - 1⟩, e))
  ∧ (i = h.length - 1 → ∃ e, h.get? i = some e ∧
        Query.on_key ⟨h, m, i⟩ v "up" = some (⟨h, m, i⟩, e))
  ∧ (i < h.length - 1 → ∃ e, h.get? (i + 1) = some e ∧
        Query.on_key ⟨h, m, i⟩ v "up" = some (⟨h, m, i + 1⟩, e)) := by
  refine ⟨?_, ?_, ?_, ?_⟩
  · rintro rfl
    refine ⟨h.get ⟨0, hi⟩, List.get?_eq_get hi, ?_⟩
    simp [Query.on_key, List.get?_eq_get hi]
  · intro hpos
    have hlt : i - 1 < h.length := by omega
    refine ⟨h.get ⟨i - 1, hlt⟩, List.get?_eq_get hlt, ?_⟩
    simp [Query.on_key, hpos, List.get?_eq_get hlt]
  · intro hb
    have hcond : ¬ ((i : Int) < (h.length : Int) - 1) := by omega
    refine ⟨h.get ⟨i, hi⟩, List.get?_eq_get hi, ?_⟩
    simp [Query.on_key, hcond, List.get?_eq_get hi]
  · intro hlt'
    have hcond : (i : Int) < (h.length : Int) - 1 := by omega
    have hlt : i + 1 < h.length := by omega
    refine ⟨h.get ⟨i + 1, hlt⟩, List.get?_eq_get hlt, ?_⟩
    simp [Query.on_key, hcond, List.get?_eq_get hlt]

/-- C4 witness: with history `["a", "b"]` and cursor 0, an `"up"` key moves
the cursor to 1 and yields entry `"b"`. -/
theorem claim_C4_witness :
    (0 : Nat) < ["a", "b"].length - 1
  ∧ ∃ e, ["a", "b"].get? 1 = some e ∧
      Query.on_key ⟨["a", "b"], 1000, 0⟩ "v" "up" = some (⟨["a", "b"], 1000, 1⟩, e) := by
  exact ⟨by decide,
    (claim_C4_navigation ["a", "b"] 1000 0 "v" (by decide)).2.2.2 (by decide)⟩

/-- C5 counterexample: a `failure` payload that carries its text under the
key `"message"` (as the claim supposes) does not produce a Failed text at
all: the handler reads `err[1]["mesg"]` and raises `KeyError`, so both the
summary update and the whole dispatch path fail. -/
theorem claim_C5_counterexample :
    Summary.error ⟨[], ""⟩ "StormRuntimeError" [("message", "boom")] = none
  ∧ on_query_bar_submitted ⟨[], ⟨[], ""⟩, initConsole 1000⟩
      [.err "StormRuntimeError" [("message", "boom")]] (fun _ => "t") = none := by
  constructor <;> rfl

/-- C5 amended: for a `failure` payload `(kind, mapping)` whose mapping
carries the failure text under the key `"mesg"` (not `"message"`), the
Failed text is `"{kind}: {mesg}"`, rendered with bold-italic markup around
the kind; the `running` class is dropped and `error` added. -/
theorem claim_C5_error_text (s : Summary) (kind : String)
    (info : List (String × String)) (m : String)
    (hm : lookupKey info "mesg" = some m)
    (hk : ∀ c ∈ kind.data, c ≠ '[') (hmc : ∀ c ∈ m.data, c ≠ '[') :
    Summary.error s kind info = some
      { classes := addClass (removeClass s.classes "running") "error",
        content := "[b i]" ++ kind ++ "[/]: " ++ m }
  ∧ plainText ("[b i]" ++ kind ++ "[/]: " ++ m) = kind ++ ": " ++ m := by
  constructor
  · simp [Summary.error, hm]
  · exact plainText_error_content kind m hk hmc

/-- C5 witness: the concrete failure `("StormRuntimeError", {"mesg": "boom"})`
renders as `StormRuntimeError: boom`. -/
theorem claim_C5_witness :
    Summary.error ⟨["running"], "x"⟩ "StormRuntimeError" [("mesg", "boom")]
      = some { classes := ["error"], content := "[b i]StormRuntimeError[/]: boom" }
  ∧ plainText "[b i]StormRuntimeError[/]: boom" = "StormRuntimeError: boom" := by
  have h := claim_C5_error_text ⟨["running"], "x"⟩ "StormRuntimeError"
    [("mesg", "boom")] "boom" rfl (by decide) (by decide)
  exact ⟨h.1, h.2⟩

/-- C8: recording a submitted query into the History Ring suppresses only
consecutive duplicates: on an empty ring the query is appended, a query
that differs from the most recent entry is prepended (the deque capacity
dropping the oldest when full), and a repeated query leaves the ring
unchanged; the cursor is reset to 0 on every record.  Submitting the same
query twice in a row yields one entry; submitting `A, B, A` yields three
entries with `A` twice. -/
theorem claim_C8_history_dedup :
    (∀ (s : QueryState) (q : String), (recordQuery s q).history_index = 0)
  ∧ (∀ (m i : Nat) (q : String), 1 ≤ m → (recordQuery ⟨[], m, i⟩ q).history = [q])
  ∧ (∀ (s : QueryState) (q h0 : String) (rest : List String),
      s.history = h0 :: rest → q ≠ h0 →
      (recordQuery s q).history = (q :: s.history).take s.max_history)
  ∧ (∀ (s : QueryState) (q : String) (rest : List String),
      s.history = q :: rest → (recordQuery s q).history = s.history)
  ∧ (∀ (m i : Nat) (q : String), 1 ≤ m →
      (recordQuery (recordQuery ⟨[], m, i⟩ q) q).history = [q])
  ∧ (∀ (m i : Nat) (A B : String), 3 ≤ m → A ≠ B →
      (recordQuery (recordQuery (recordQuery ⟨[], m, i⟩ A) B) A).history
        = [A, B, A]) := by
  have hrec_empty : ∀ (m i : Nat) (q : String), 1 ≤ m →
      recordQuery ⟨[], m, i⟩ q = ⟨[q], m, 0⟩ := by
    intro m i q hm
    obtain ⟨k, rfl⟩ : ∃ k, m = k + 1 := ⟨m - 1, by omega⟩
    simp [recordQuery]
  refine ⟨?_, ?_, ?_, ?_, ?_, ?_⟩
  · intro s q
    rcases hs : s.history with _ | ⟨h0, t⟩ <;> simp [recordQuery, hs]
    split <;> rfl
  · intro m i q hm
    rw [hrec_empty m i q hm]
  · intro s q h0 rest hs hne
    simp [recordQuery, hs, hne]
  · intro s q rest hs
    simp [recordQuery, hs]
  · intro m i q hm
    rw [hrec_empty m i q hm]
    simp [recordQuery]
  · intro m i A B hm hne
    obtain ⟨k, rfl⟩ : ∃ k, m = k + 3 := ⟨m - 3, by omega⟩
    rw [hrec_empty (k + 3) i A (by omega)]
    simp [recordQuery, Ne.symm hne, hne, List.take]

/-- C8 witness: from an empty ring of capacity 1000, submitting
`"a", "a", "b", "a"` leaves three entries `["a", "b", "a"]`. -/
theorem claim_C8_witness :
    (recordQuery (recordQuery (recordQuery ⟨[], 1000, 0⟩ "a") "b") "a").history
      = ["a", "b", "a"]
  ∧ (recordQuery (recordQuery ⟨[], 1000, 0⟩ "a") "a").history = ["a"] := by
  exact ⟨claim_C8_history_dedup.2.2.2.2.2 1000 0 "a" "b" (by omega) (by decide),
    claim_C8_history_dedup.2.2.2.2.1 1000 0 "a" (by omega)⟩

/-- C10: adding records to the Record Table Set is total only when every
record's attribute mapping contains `"repr"`: rows are built solely from
the `"repr"` value, and a record lacking the key makes `add_nodes` (and the
whole record-dispatch path of the handler) fail with a `KeyError`,
modelled as `none`. -/
theorem claim_C10_repr_required :
    (∀ (tables : List (String × List String)) (ns : List Node),
        (∀ n ∈ ns, lookupKey n.data "repr" ≠ none) →
        ∃ t', add_nodes tables ns = some t')
  ∧ (∀ (tables : List (String × List String)) (pre : List Node) (n : Node)
        (post : List Node),
        (∀ x ∈ pre, lookupKey x.data "repr" ≠ none) →
        lookupKey n.data "repr" = none →
        add_nodes tables (pre ++ n :: post) = none)
  ∧ (∀ (tables : List (String × List String)) (form valu : String)
        (data : List (String × String)) (r : String),
        lookupKey data "repr" = some r →
        add_nodes tables [⟨form, valu, data⟩] = some (insertRows tables form [r]))
  ∧ (∀ (st : StormState) (times : Nat → String) (form valu : String)
        (data : List (String × String)),
        lookupKey data "repr" = none →
        on_query_bar_submitted st [.node ⟨form, valu, data⟩] times = none) := by
  refine ⟨add_nodes_total, ?_, ?_, ?_⟩
  · intro tables pre n post hpre hn
    simp [add_nodes, sortNodes_missing pre n post hpre hn []]
  · intro tables form valu data r hr
    simp [add_nodes, sortNodes, hr, addTables, insertRow, List.foldl]
  · intro st times form valu data hn
    have hnone : add_nodes [] [⟨form, valu, data⟩] = none := by
      simp [add_nodes, sortNodes, hn]
    simp [on_query_bar_submitted, runLoop, stepMsg, stormLimit, finishRun,
      initLoop, hnone]

/-- C10 witness: a single node with a `"repr"` attribute is added as the
sole row of its form's table, while a node without it fails the handler. -/
theorem claim_C10_witness :
    add_nodes [] [⟨"inet:ipv4", "1", [("repr", "1.2.3.4")]⟩]
      = some [("inet:ipv4", ["1.2.3.4"])]
  ∧ on_query_bar_submitted ⟨[], ⟨[], ""⟩, initConsole 1000⟩
      [.node ⟨"inet:ipv4", "1", []⟩] (fun _ => "t") = none := by
  exact ⟨claim_C10_repr_required.2.2.1 [] "inet:ipv4" "1" [("repr", "1.2.3.4")]
      "1.2.3.4" rfl,
    claim_C10_repr_required.2.2.2 ⟨[], ⟨[], ""⟩, initConsole 1000⟩ (fun _ => "t")
      "inet:ipv4" "1" [] rfl⟩

/-- C3 counterexample: a console of capacity 2 holds only 1 entry after
printing 3 single-line texts, not the 2 entries the claim states: the code
evicts as soon as the held count reaches the capacity after an append, not
when it exceeds it. -/
theorem claim_C3_counterexample :
    (printAll (initConsole 2) [("t", "a"), ("t", "b"), ("t", "c")]).entries.length = 1
  ∧ (printAll (initConsole 2) [("t", "a"), ("t", "b"), ("t", "c")]).entries.length
      ≠ 2 := by
  constructor <;> decide

/-- C3 amended: printing `capacity + 1` single-line texts into an initially
empty Bounded Console Log leaves exactly `capacity - 1` held entries (not
`capacity`): the code evicts the single oldest entry as soon as the held
count reaches `capacity` after an append.  The entry with sequence number 0
is the first one evicted: after `capacity` prints the held sequence numbers
are `1 .. capacity - 1`, and after `capacity + 1` prints they are
`2 .. capacity`. -/
theorem claim_C3_console_eviction (cap : Nat) (hcap : 1 ≤ cap)
    (ps : List (String × String)) (hlen : ps.length = cap + 1)
    (hps : ∀ p ∈ ps, splitlines p.2 = [p.2]) :
    (printAll (initConsole cap) ps).entries.length = cap - 1
  ∧ (printAll (initConsole cap) ps).entries.map Prod.fst
      = List.range' 2 (cap - 1)
  ∧ (printAll (initConsole cap) (ps.take cap)).entries.map Prod.fst
      = List.range' 1 (cap - 1)
  ∧ (0 : Nat) ∉ (printAll (initConsole cap) (ps.take cap)).entries.map Prod.fst := by
  obtain ⟨hl, hn, hf, he⟩ :=
    printAll_good cap hcap ps (initConsole cap) 0 hps (initConsole_good cap)
  obtain ⟨hl', hn', hf', he'⟩ :=
    printAll_good cap hcap (ps.take cap) (initConsole cap) 0
      (fun p hp => hps p (List.mem_of_mem_take hp)) (initConsole_good cap)
  have htl : (ps.take cap).length = cap := by
    rw [List.length_take]
    omega
  have h1 : (printAll (initConsole cap) ps).entries.map Prod.fst
      = List.range' 2 (cap - 1) := by
    rw [he, hf, hlen]
    congr 1 <;> omega
  have h2 : (printAll (initConsole cap) (ps.take cap)).entries.map Prod.fst
      = List.range' 1 (cap - 1) := by
    rw [he', hf', htl]
    congr 1 <;> omega
  refine ⟨?_, h1, h2, ?_⟩
  · have := congrArg List.length h1
    simpa using this
  · rw [h2]
    simp only [List.mem_range'_1]
    omega

/-- C3 witness: a console of capacity 3; after 4 single-line prints two
entries remain, with sequence numbers 2 and 3; after the first 3 prints the
entries are 1 and 2, entry 0 having been evicted first. -/
theorem claim_C3_witness :
    (printAll (initConsole 3)
        [("t", "a"), ("t", "b"), ("t", "c"), ("t", "d")]).entries.length = 3 - 1
  ∧ (printAll (initConsole 3)
        [("t", "a"), ("t", "b"), ("t", "c"), ("t", "d")]).entries.map Prod.fst
      = List.range' 2 (3 - 1)
  ∧ (printAll (initConsole 3)
        ([("t", "a"), ("t", "b"), ("t", "c"), ("t", "d")].take 3)).entries.map Prod.fst
      = List.range' 1 (3 - 1)
  ∧ (0 : Nat) ∉ (printAll (initConsole 3)
        ([("t", "a"), ("t", "b"), ("t", "c"), ("t", "d")].take 3)).entries.map
          Prod.fst :=
  claim_C3_console_eviction 3 (by decide) _ (by decide) (by decide)

/-- C1 counterexample: a record buffered when the `failure` arrives IS
flushed into the Record Table Set: with one buffered node and then an
`err`, the final tables contain that node's row and the flush counter is 1,
so a failed query does not show only records already flushed before the
failure. -/
theorem claim_C1_counterexample :
    (on_query_bar_submitted ⟨[("prev", ["old"])], ⟨[], ""⟩, initConsole 8⟩
        [.node ⟨"inet:fqdn", "x", [("repr", "evil.com")]⟩,
          .err "E" [("mesg", "boom")]]
        (fun _ => "t")).map (fun l => (l.st.nodes, l.flushes))
      = some ([("inet:fqdn", ["evil.com"])], 1) := by
  rfl

/-- C1 amended: when a `failure` message is consumed, the stream
consumption stops at that message — no later message of the stream is
processed — but the records still held in the Buffer at that moment are
then flushed into the Record Table Set by the end-of-stream code after the
loop (clearing the previous tables first if no flush had happened yet), so
a failed query shows the records already flushed plus those buffered at
the failure. -/
theorem claim_C1_failure_stops_stream (st : StormState)
    (msgs rest : List StormMsg) (kind : String) (info : List (String × String))
    (times : Nat → String) (hmsgs : ∀ m ∈ msgs, m.isErr = false) :
    on_query_bar_submitted st (msgs ++ .err kind info :: rest) times
      = on_query_bar_submitted st (msgs ++ [.err kind info]) times
  ∧ ∀ ls fin, runLoop stormLimit times 0 (initLoop st) msgs = some ls →
      on_query_bar_submitted st (msgs ++ [.err kind info]) times = some fin →
      fin.recordsSeen = ls.recordsSeen
      ∧ (ls.buffer = [] → fin.flushes = ls.flushes)
      ∧ (ls.buffer ≠ [] → fin.flushes = ls.flushes + 1
          ∧ add_nodes (if ls.cleared then ls.st.nodes else []) ls.buffer
              = some fin.st.nodes) := by
  constructor
  · unfold on_query_bar_submitted
    rw [runLoop_append stormLimit times msgs (.err kind info :: rest) hmsgs 0
        (initLoop st),
      runLoop_append stormLimit times msgs [.err kind info] hmsgs 0 (initLoop st)]
    cases hr : runLoop stormLimit times 0 (initLoop st) msgs with
    | none => simp
    | some mid =>
      simp only [Option.some_bind]
      rw [runLoop_err_break, runLoop_err_break]
  · intro ls fin hls hfin
    unfold on_query_bar_submitted at hfin
    rw [runLoop_append stormLimit times msgs [.err kind info] hmsgs 0
        (initLoop st), hls] at hfin
    simp only [Option.some_bind] at hfin
    rw [runLoop_err_break] at hfin
    cases herr : ls.st.summary.error kind info with
    | none =>
      rw [herr] at hfin
      exact absurd hfin (by simp)
    | some s' =>
      rw [herr] at hfin
      simp only [Option.some_bind] at hfin
      by_cases hemp : ls.buffer = []
      · have hfe : fin = { ls with st := { ls.st with summary := s' } } := by
          unfold finishRun at hfin
          rw [if_pos hemp] at hfin
          exact (Option.some.inj hfin).symm
        subst hfe
        exact ⟨rfl, fun _ => rfl, fun h => absurd hemp h⟩
      · unfold finishRun at hfin
        rw [if_neg hemp] at hfin
        by_cases hcl : ls.cleared = true
        · rw [hcl] at hfin
          simp only [not_true, if_neg, ite_false, reduceIte] at hfin
          obtain ⟨t', ht', heq⟩ := Option.map_eq_some'.mp hfin
          rw [← heq]
          refine ⟨rfl, fun h => absurd h hemp, fun _ => ⟨rfl, ?_⟩⟩
          rw [hcl, if_pos rfl]
          exact ht'
        · simp only [Bool.not_eq_true] at hcl
          rw [hcl] at hfin
          simp only [Bool.false_eq_true, not_false_iff, if_pos, reduceIte] at hfin
          obtain ⟨t', ht', heq⟩ := Option.map_eq_some'.mp hfin
          rw [← heq]
          refine ⟨rfl, fun h => absurd h hemp, fun _ => ⟨rfl, ?_⟩⟩
          rw [hcl]
          simp only [Bool.false_eq_true, if_neg, reduceIte]
          exact ht'

/-- C1 witness: with one record before the failure, the stream with a
trailing `completion` message after the failure produces the same final
state as the stream that ends at the failure. -/
theorem claim_C1_witness :
    on_query_bar_submitted ⟨[], ⟨[], ""⟩, initConsole 4⟩
      [.node ⟨"f", "v", [("repr", "r")]⟩, .err "E" [("mesg", "b")], .fini 7 10]
      (fun _ => "t")
      = on_query_bar_submitted ⟨[], ⟨[], ""⟩, initConsole 4⟩
        [.node ⟨"f", "v", [("repr", "r")]⟩, .err "E" [("mesg", "b")]]
        (fun _ => "t") :=
  (claim_C1_failure_stops_stream ⟨[], ⟨[], ""⟩, initConsole 4⟩
    [.node ⟨"f", "v", [("repr", "r")]⟩] [.fini 7 10] "E" [("mesg", "b")]
    (fun _ => "t") (by decide)).1

/-- C2 counterexample: a cycle that ends in failure with a non-empty
buffer and no in-loop flush does not leave the previous cycle's tables
unchanged: the end-of-stream flush clears them and inserts the buffered
row. -/
theorem claim_C2_counterexample :
    (on_query_bar_submitted ⟨[("old:form", ["r0"])], ⟨[], ""⟩, initConsole 6⟩
        [.node ⟨"new:form", "y", [("repr", "r1")]⟩, .err "Err" [("mesg", "m")]]
        (fun _ => "t")).map (fun l => l.st.nodes)
      = some [("new:form", ["r1"])]
  ∧ ([("new:form", ["r1"])] : List (String × List String))
      ≠ [("old:form", ["r0"])] := by
  constructor
  · rfl
  · decide

/-- C2 amended: in every query cycle the Category Tables are cleared at
most once, and exactly once when any flush (in-loop or end-of-stream)
occurs — the clear accompanies the first flush; a cycle in which no flush
at all occurs (for example a failure with an empty buffer before any
flush) leaves the previous cycle's tables completely unchanged. -/
theorem claim_C2_lazy_clear (st : StormState) (msgs : List StormMsg)
    (times : Nat → String) (ls : LoopState)
    (h : on_query_bar_submitted st msgs times = some ls) :
    ls.clears ≤ 1
  ∧ (ls.clears = 1 ↔ 1 ≤ ls.flushes)
  ∧ (ls.flushes = 0 → ls.st.nodes = st.nodes) := by
  unfold on_query_bar_submitted at h
  cases hr : runLoop stormLimit times 0 (initLoop st) msgs with
  | none =>
    rw [hr] at h
    exact absurd h (by simp)
  | some mid =>
    rw [hr] at h
    simp only [Option.some_bind] at h
    obtain ⟨h1, h2, h3, h4⟩ :=
      runLoop_clearInv st.nodes times msgs 0 (initLoop st) mid hr
        ⟨by simp [initLoop], by simp [initLoop], by simp [initLoop], fun _ => rfl⟩
    by_cases hemp : mid.buffer = []
    · have hml : ls = mid := by
        unfold finishRun at h
        rw [if_pos hemp] at h
        exact (Option.some.inj h).symm
      subst hml
      exact ⟨h1, ⟨fun hc => h3.mp (h2.mpr hc), fun hf => h2.mp (h3.mpr hf)⟩, h4⟩
    · unfold finishRun at h
      rw [if_neg hemp] at h
      by_cases hcl : mid.cleared = true
      · rw [hcl] at h
        simp only [not_true, reduceIte] at h
        obtain ⟨t', ht', heq⟩ := Option.map_eq_some'.mp h
        rw [← heq]
        have hc1 : mid.clears = 1 := h2.mp hcl
        refine ⟨by simpa using Nat.le_of_eq hc1, ?_, ?_⟩
        · constructor
          · intro _
            simp
          · intro _
            simpa using hc1
        · intro hz
          exact absurd hz (by simp)
      · simp only [Bool.not_eq_true] at hcl
        rw [hcl] at h
        simp only [Bool.false_eq_true, not_false_iff, reduceIte] at h
        obtain ⟨t', ht', heq⟩ := Option.map_eq_some'.mp h
        rw [← heq]
        have hc0 : mid.clears = 0 := by
          have hne : mid.clears ≠ 1 := fun hc => by
            rw [hcl] at h2
            exact absurd (h2.mpr hc) (by simp)
          omega
        refine ⟨by simpa using Nat.le_of_eq (by omega : mid.clears + 1 = 1), ?_, ?_⟩
        · constructor
          · intro _
            simp
          · intro _
            simpa using (by omega : mid.clears + 1 = 1)
        · intro hz
          exact absurd hz (by simp)

/-- C2 witness: an empty stream performs no flush and no clear, leaving
the previous cycle's tables untouched. -/
theorem claim_C2_witness :
    (initLoop ⟨[("a", ["b"])], ⟨[], ""⟩, initConsole 2⟩).clears ≤ 1
  ∧ ((initLoop ⟨[("a", ["b"])], ⟨[], ""⟩, initConsole 2⟩).clears = 1
      ↔ 1 ≤ (initLoop ⟨[("a", ["b"])], ⟨[], ""⟩, initConsole 2⟩).flushes)
  ∧ ((initLoop ⟨[("a", ["b"])], ⟨[], ""⟩, initConsole 2⟩).flushes = 0
      → (initLoop ⟨[("a", ["b"])], ⟨[], ""⟩, initConsole 2⟩).st.nodes
          = [("a", ["b"])]) :=
  claim_C2_lazy_clear ⟨[("a", ["b"])], ⟨[], ""⟩, initConsole 2⟩ [] (fun _ => "t")
    (initLoop ⟨[("a", ["b"])], ⟨[], ""⟩, initConsole 2⟩) rfl

/-- C6: the Buffer never exceeds `limit = 100` records in any reachable
loop state; a stream of exactly 100 record messages (and nothing else)
causes exactly one flush and leaves zero buffered records; a stream of 99
record messages followed by stream exhaustion performs no in-loop flush
and flushes the 99 records via the end-of-stream path. -/
theorem claim_C6_buffer_limit (st : StormState) (times : Nat → String) :
    (∀ (msgs : List StormMsg) (ls : LoopState),
        runLoop stormLimit times 0 (initLoop st) msgs = some ls →
        ls.buffer.length ≤ 100)
  ∧ (∀ ns : List Node, ns.length = 100 →
        (∀ n ∈ ns, lookupKey n.data "repr" ≠ none) →
        (on_query_bar_submitted st (ns.map .node) times).map
            (fun l => (l.flushes, l.buffer.length)) = some (1, 0))
  ∧ (∀ ns : List Node, ns.length = 99 →
        (∀ n ∈ ns, lookupKey n.data "repr" ≠ none) →
        ∃ mid, runLoop stormLimit times 0 (initLoop st) (ns.map .node) = some mid
          ∧ mid.flushes = 0 ∧ mid.buffer.length = 99
          ∧ (finishRun mid).map (fun l => l.flushes) = some 1) := by
  refine ⟨?_, ?_, ?_⟩
  · intro msgs ls h
    exact le_of_lt
      (runLoop_buffer_lt times msgs 0 (initLoop st) ls h (by simp [initLoop]))
  · intro ns hlen hrepr
    obtain ⟨ls', hrun, _, _, _, hblen, hfl, _, _⟩ :=
      runLoop_nodes times ns 0 (initLoop st)
        (fun x hx => absurd hx (List.not_mem_nil x)) hrepr (by simp [initLoop])
    have hblen2 : ls'.buffer.length = (0 + ns.length) % 100 := hblen
    have hfl2 : ls'.flushes = 0 + (0 + ns.length) / 100 := hfl
    rw [hlen] at hblen2 hfl2
    have hbuf0 : ls'.buffer = [] := List.length_eq_zero.mp (by omega)
    have hf1 : ls'.flushes = 1 := by omega
    unfold on_query_bar_submitted
    rw [hrun]
    simp only [Option.some_bind]
    unfold finishRun
    rw [if_pos hbuf0]
    simp only [Option.map_some']
    rw [hf1]
    have hb0 : ls'.buffer.length = 0 := by omega
    rw [hb0]
  · intro ns hlen hrepr
    obtain ⟨mid, hrun, _, _, _, hblen, hfl, hbr, _⟩ :=
      runLoop_nodes times ns 0 (initLoop st)
        (fun x hx => absurd hx (List.not_mem_nil x)) hrepr (by simp [initLoop])
    have hblen2 : mid.buffer.length = (0 + ns.length) % 100 := hblen
    have hfl2 : mid.flushes = 0 + (0 + ns.length) / 100 := hfl
    rw [hlen] at hblen2 hfl2
    have hb99 : mid.buffer.length = 99 := by omega
    have hf0 : mid.flushes = 0 := by omega
    have hbne : mid.buffer ≠ [] := by
      intro hc
      rw [hc] at hb99
      simp at hb99
    obtain ⟨fin, hfin, _, _, _, _, hne⟩ := finishRun_total mid hbr
    obtain ⟨hfl1, _⟩ := hne hbne
    refine ⟨mid, hrun, hf0, hb99, ?_⟩
    rw [hfin]
    simp only [Option.map_some']
    rw [hfl1, hf0]

/-- C6 witness: 100 identical records with a representation flush exactly
once leaving an empty buffer. -/
theorem claim_C6_witness :
    (on_query_bar_submitted ⟨[], ⟨[], ""⟩, initConsole 2⟩
        ((List.replicate 100 (⟨"f", "v", [("repr", "r")]⟩ : Node)).map
          StormMsg.node)
        (fun _ => "t")).map (fun l => (l.flushes, l.buffer.length))
      = some (1, 0) :=
  (claim_C6_buffer_limit ⟨[], ⟨[], ""⟩, initConsole 2⟩ (fun _ => "t")).2.1
    (List.replicate 100 ⟨"f", "v", [("repr", "r")]⟩) (by simp)
    (by
      intro n hn
      rw [List.eq_of_mem_replicate hn]
      decide)

/-- C7: a `completion` message with count `c` and elapsed milliseconds `t`
sets the Status Indicator to Succeeded — content
`"{count} in {took/1000:.2f}s"` with success styling and without the
running class — and the stream continues: record messages after the
completion are still consumed (the record counter grows by their number)
and the summary stays exactly the Succeeded one. -/
theorem claim_C7_completion (st : StormState) (times : Nat → String)
    (msgs1 : List StormMsg) (ls : LoopState) (c t : Nat) (ns : List Node)
    (h1 : ∀ m ∈ msgs1, m.isErr = false)
    (h2 : runLoop stormLimit times 0 (initLoop st) msgs1 = some ls)
    (hb : ∀ n ∈ ls.buffer, lookupKey n.data "repr" ≠ none)
    (hn : ∀ n ∈ ns, lookupKey n.data "repr" ≠ none) :
    ((on_query_bar_submitted st (msgs1 ++ .fini c t :: ns.map .node) times).map
        (fun l => (l.st.summary, l.recordsSeen)))
      = some (ls.st.summary.success c t, ls.recordsSeen + ns.length)
  ∧ (ls.st.summary.success c t).content
      = "[b]" ++ toString c ++ "[/] in [i]" ++ fmtSeconds t ++ "s"
  ∧ "success" ∈ (ls.st.summary.success c t).classes
  ∧ "running" ∉ (ls.st.summary.success c t).classes := by
  have hlen : ls.buffer.length < 100 :=
    runLoop_buffer_lt times msgs1 0 (initLoop st) ls h2 (by simp [initLoop])
  refine ⟨?_, rfl, ?_, ?_⟩
  · unfold on_query_bar_submitted
    rw [runLoop_append stormLimit times msgs1 (.fini c t :: ns.map .node) h1 0
        (initLoop st), h2]
    simp only [Option.some_bind]
    rw [runLoop_fini]
    obtain ⟨ls', hrun, hsum, hcon, hrec, hblen, hfl, hbr, hlt⟩ :=
      runLoop_nodes times ns (0 + msgs1.length + 1)
        { ls with st := { ls.st with summary := ls.st.summary.success c t } }
        hb hn hlen
    rw [hrun]
    simp only [Option.some_bind]
    obtain ⟨fin, hfin, hfs, hfc, hfr, _, _⟩ := finishRun_total ls' hbr
    rw [hfin]
    simp only [Option.map_some']
    have hs1 : ls'.st.summary = ls.st.summary.success c t := hsum
    have hr1 : ls'.recordsSeen = ls.recordsSeen + ns.length := hrec
    rw [hfs, hfr, hs1, hr1]
  · unfold Summary.success
    by_cases hm : "success" ∈ removeClass ls.st.summary.classes "running"
    · simp [addClass, hm]
    · simp [addClass, hm]
  · unfold Summary.success
    have hnr : "running" ∉ removeClass ls.st.summary.classes "running" := by
      intro hmem
      have := List.of_mem_filter hmem
      simp at this
    by_cases hm : "success" ∈ removeClass ls.st.summary.classes "running"
    · simpa [addClass, hm] using hnr
    · simp only [addClass, hm, if_neg, reduceIte]
      intro hmem
      rcases List.mem_append.mp hmem with hmem | hmem
      · exact hnr hmem
      · simp at hmem

/-- C7 witness: a `completion` with count 250 and 1500 ms followed by one
more record leaves the plain status text `250 in 1.50s` (two-decimal
seconds) with the record still processed. -/
theorem claim_C7_witness :
    ((on_query_bar_submitted ⟨[], ⟨[], ""⟩, initConsole 3⟩
        ([] ++ .fini 250 1500
          :: List.map StormMsg.node [⟨"inet:ipv4", "w", [("repr", "8.8.8.8")]⟩])
        (fun _ => "t")).map
      (fun l => (plainText l.st.summary.content, l.recordsSeen)))
      = some ("250 in 1.50s", 1) := by
  have h := (claim_C7_completion ⟨[], ⟨[], ""⟩, initConsole 3⟩ (fun _ => "t") []
    (initLoop ⟨[], ⟨[], ""⟩, initConsole 3⟩) 250 1500
    [⟨"inet:ipv4", "w", [("repr", "8.8.8.8")]⟩]
    (fun m hm => absurd hm (List.not_mem_nil m)) rfl
    (fun n hn => absurd hn (List.not_mem_nil n))
    (by decide)).1
  obtain ⟨l, hl, hfl⟩ := Option.map_eq_some'.mp h
  rw [hl]
  simp only [Option.map_some']
  have hs := congrArg Prod.fst hfl
  have hr := congrArg Prod.snd hfl
  simp only at hs hr
  rw [hs, hr]
  decide
